/-
  Verification of the tracking / navigation-measurement core of
  libswiftnav (src/libswiftnav/track.c) against its specification.

  The C code works with IEEE doubles; the shallow embedding below models
  doubles as real numbers (ℝ).  Machine integers that stay small (loop
  counters, sample counts) are modelled as ℕ/ℤ.  External collaborators
  (the satellite position propagator `calc_sat_pos`) are passed in as
  function parameters.  Constants that live in headers not present under
  src/ are modelled from the spec.
-/
import Mathlib

open Real

/-! ### Physical constants

The constants `NAV_C`, `GPS_L1_HZ` and `NOMINAL_RANGE` are `#define`s in
headers (pvt.h / track.h) that are not part of the sources; only track.c
is.  They are modelled from the spec. -/

/-- Modelled from the spec: the speed of light in m/s (`speedOfLight = 299792458` m/s,
spec section 8); defined in a header not present under src/. -/
noncomputable def NAV_C : ℝ := 299792458

/-- Modelled from the spec: the GPS L1 carrier frequency in Hz (1575.42 MHz,
"GPS L1 carrier frequency", spec section 6); defined in a header not present
under src/. -/
noncomputable def GPS_L1_HZ : ℝ := 1.57542e9

/-- Modelled from the spec: the nominal range offset in metres, "an arbitrary
constant bias (must be consistent across channels; its absolute value does not
matter ...)" (spec section 4.4); defined in a header not present under src/.
The theorems below treat it purely symbolically, so its value never matters. -/
noncomputable def NOMINAL_RANGE : ℝ := 22980e3

/-! ### Loop Filter Designer (`calc_loop_coeff`, `calc_loop_gains`) -/

/-- The natural frequency `omega_n = bw*8*zeta / (4*zeta*zeta + 1)`, the
expression computed (textually identically) at track.c:34 and track.c:110. -/
noncomputable def loop_omega_n (bw zeta : ℝ) : ℝ := bw * 8 * zeta / (4 * zeta * zeta + 1)

/-- track.c:31-38: `calc_loop_coeff` returns the pair `(tau1, tau2)`. -/
noncomputable def calc_loop_coeff (BW zeta k : ℝ) : ℝ × ℝ :=
  let omega_n := loop_omega_n BW zeta
  (k / (omega_n * omega_n), 2 * zeta / omega_n)

/-- track.c:107-118: `calc_loop_gains` returns the pair `(pgain, igain)`. -/
noncomputable def calc_loop_gains (bw zeta k sample_freq : ℝ) : ℝ × ℝ :=
  let omega_n := loop_omega_n bw zeta
  let T := 1 / sample_freq
  let denominator := k * (4 + 4 * zeta * omega_n * T + omega_n * omega_n * T * T)
  (8 * zeta * omega_n * T / denominator,
   4 * omega_n * omega_n * T * T / denominator)

/-- The proportional and integral gains recomputed from the two-time-constant
parameterization `(tau1, tau2)` of `calc_loop_coeff`, using
`omega_n^2 = k / tau1` and `2*zeta*omega_n = tau2 * omega_n^2`:
`k_p = 8 zeta omega_n T / D` and `k_i = 4 omega_n^2 T^2 / D` with
`D = k*(4 + 4 zeta omega_n T + omega_n^2 T^2)`. -/
noncomputable def gains_from_time_constants (tau1 tau2 k T : ℝ) : ℝ × ℝ :=
  let w2 := k / tau1
  let tzw := tau2 * w2
  let D := k * (4 + 2 * tzw * T + w2 * T * T)
  (4 * tzw * T / D, 4 * w2 * T * T / D)

/-! ### Discriminators (`costas_discriminator`, `dll_discriminator`) -/

/-- track.c:134-136: `atan(I/Q)/(2*M_PI)`.  The real-valued model uses
Lean's total division (`I/0 = 0`); the IEEE `Q = 0` behaviour
(`atan(±inf) = ±pi/2`) is captured below as the arctangent limit. -/
noncomputable def costas_discriminator (I Q : ℝ) : ℝ :=
  Real.arctan (I / Q) / (2 * Real.pi)

/-- The `correlation_t` record: one complex accumulator.  Its fields are
integral in the C header (cast to double at use); modelled as ℝ. -/
structure correlation_t where
  I : ℝ
  Q : ℝ

/-- track.c:138-143: normalized early-minus-late magnitude discriminator
over a three-element correlation array `cs[3]` = (early, prompt, late). -/
noncomputable def dll_discriminator (cs : Fin 3 → correlation_t) : ℝ :=
  let early_mag := Real.sqrt ((cs 0).I * (cs 0).I + (cs 0).Q * (cs 0).Q)
  let late_mag := Real.sqrt ((cs 2).I * (cs 2).I + (cs 2).Q * (cs 2).Q)
  (early_mag - late_mag) / (early_mag + late_mag)

/-! ### Correlator Engine (`track_correlate`) -/

/-- Truncation toward zero, the rounding used by C's `fmod`. -/
noncomputable def rtrunc (t : ℝ) : ℤ := if 0 ≤ t then ⌊t⌋ else ⌈t⌉

/-- C's `fmod x y = x - y * trunc (x/y)` (exact for the mathematical reals). -/
noncomputable def fmod (x y : ℝ) : ℝ := x - y * rtrunc (x / y)

/-- The per-sample mutable state of the `track_correlate` loop,
track.c:207-218: phases, the recursive carrier replica (sin/cos pair) and
the six correlation accumulators. -/
structure TrackState where
  code_phase : ℝ
  carr_phase : ℝ
  carr_sin : ℝ
  carr_cos : ℝ
  I_E : ℝ
  Q_E : ℝ
  I_P : ℝ
  Q_P : ℝ
  I_L : ℝ
  Q_L : ℝ

/-- One iteration of the `track_correlate` inner loop, track.c:222-248, for
sample index `i`.  `(int)ceil(x)` on an in-range double is `⌈x⌉`. -/
noncomputable def trackStep (samples : ℕ → ℝ) (code : ℤ → ℝ)
    (code_step carr_step sin_delta cos_delta : ℝ)
    (st : TrackState) (i : ℕ) : TrackState :=
  let code_E := code ⌈st.code_phase - 0.5⌉
  let code_P := code ⌈st.code_phase⌉
  let code_L := code ⌈st.code_phase + 0.5⌉
  let baseband_Q := st.carr_cos * samples i
  let baseband_I := st.carr_sin * samples i
  let carr_sin_next := st.carr_sin * cos_delta + st.carr_cos * sin_delta
  let carr_cos_next := st.carr_cos * cos_delta - st.carr_sin * sin_delta
  let i_mag := (3 - carr_sin_next * carr_sin_next - carr_cos_next * carr_cos_next) / 2
  { code_phase := st.code_phase + code_step
    carr_phase := st.carr_phase + carr_step
    carr_sin := carr_sin_next * i_mag
    carr_cos := carr_cos_next * i_mag
    I_E := st.I_E + code_E * baseband_I
    Q_E := st.Q_E + code_E * baseband_Q
    I_P := st.I_P + code_P * baseband_I
    Q_P := st.Q_P + code_P * baseband_Q
    I_L := st.I_L + code_L * baseband_I
    Q_L := st.Q_L + code_L * baseband_Q }

/-- The outputs written back through the pointer arguments of
`track_correlate`: the six accumulators, the two updated phases and
`num_samples`. -/
structure TrackResult where
  I_E : ℝ
  Q_E : ℝ
  I_P : ℝ
  Q_P : ℝ
  I_L : ℝ
  Q_L : ℝ
  code_phase : ℝ
  carr_phase : ℝ
  num_samples : ℕ

/-- track.c:203-251: `track_correlate`.  `num_samples` (track.c:220) is
`(int)ceil((1023.0 - code_phase)/code_step)`, a nonnegative value for the
valid inputs the claims quantify over, so its `u32` image is `Int.toNat`
of the ceiling. -/
noncomputable def track_correlate (samples : ℕ → ℝ) (code : ℤ → ℝ)
    (init_code_phase code_step init_carr_phase carr_step : ℝ) : TrackResult :=
  let sin_delta := Real.sin carr_step
  let cos_delta := Real.cos carr_step
  let num_samples := (⌈(1023 - init_code_phase) / code_step⌉).toNat
  let st0 : TrackState :=
    { code_phase := init_code_phase
      carr_phase := init_carr_phase
      carr_sin := Real.sin init_carr_phase
      carr_cos := Real.cos init_carr_phase
      I_E := 0, Q_E := 0, I_P := 0, Q_P := 0, I_L := 0, Q_L := 0 }
  let st := (List.range num_samples).foldl
    (trackStep samples code code_step carr_step sin_delta cos_delta) st0
  { I_E := st.I_E, Q_E := st.Q_E, I_P := st.I_P
    Q_P := st.Q_P, I_L := st.I_L, Q_L := st.Q_L
    code_phase := st.code_phase - 1023
    carr_phase := fmod st.carr_phase (2 * Real.pi)
    num_samples := num_samples }

/-- The code phase seen by loop iteration `i` (the accumulator advances by
`code_step` once per sample, track.c:246). -/
noncomputable def code_phase_at (init_code_phase code_step : ℝ) (i : ℕ) : ℝ :=
  init_code_phase + i * code_step

/-- The early chip index read at iteration `i`: `(int)ceil(code_phase - 0.5)`,
track.c:226. -/
noncomputable def early_chip_index (init_code_phase code_step : ℝ) (i : ℕ) : ℤ :=
  ⌈code_phase_at init_code_phase code_step i - 0.5⌉

/-- The late chip index read at iteration `i`: `(int)ceil(code_phase + 0.5)`,
track.c:228. -/
noncomputable def late_chip_index (init_code_phase code_step : ℝ) (i : ℕ) : ℤ :=
  ⌈code_phase_at init_code_phase code_step i + 0.5⌉

/-! ### Navigation Measurement Engine (`calc_navigation_measurement_`) -/

/-- The `channel_measurement_t` input record (fields as used by
track.c:168-174). -/
structure channel_measurement_t where
  time_of_week_ms : ℝ
  code_phase_chips : ℝ
  code_phase_rate : ℝ
  carrier_freq : ℝ
  receiver_time : ℝ

/-- Modelled from the spec: the outputs of the external collaborator
`calc_sat_pos(satPos, satVel, clockOffset, clockDrift, ephemeris,
transmitTime)` (spec section 6) — satellite position, velocity and the two
clock terms.  `calc_sat_pos` itself is out of scope ("consumed, not
reimplemented"), so `calc_navigation_measurement_` below is parametrized by
a function producing this record per channel and transmit time. -/
structure SatPosResult where
  sat_pos : Fin 3 → ℝ
  sat_vel : Fin 3 → ℝ
  clock_err : ℝ
  clock_rate_err : ℝ

/-- The `navigation_measurement_t` output record (fields as written by
track.c:172-187). -/
structure navigation_measurement_t where
  TOT : ℝ
  pseudorange : ℝ
  pseudorange_rate : ℝ
  sat_pos : Fin 3 → ℝ
  sat_vel : Fin 3 → ℝ

/-- `TOTs[i]` as accumulated at track.c:168-170:
`1e-3 * time_of_week_ms + code_phase_chips / 1.023e6
 + (nav_time - receiver_time) * code_phase_rate / 1.023e6`. -/
noncomputable def channel_TOT (nav_time : ℝ) (m : channel_measurement_t) : ℝ :=
  1e-3 * m.time_of_week_ms + m.code_phase_chips / 1.023e6
    + (nav_time - m.receiver_time) * m.code_phase_rate / 1.023e6

/-- `mean_TOT` at track.c:173,177: the sum of the `TOTs` divided by
`n_channels`. -/
noncomputable def mean_TOT (n : ℕ) (meas : Fin n → channel_measurement_t)
    (nav_time : ℝ) : ℝ :=
  (∑ i, channel_TOT nav_time (meas i)) / n

/-- The pseudorange assigned at track.c:182, before the per-satellite clock
correction of track.c:186 is added:
`(mean_TOT - TOTs[i])*NAV_C + NOMINAL_RANGE`. -/
noncomputable def pseudorange_initial (n : ℕ) (meas : Fin n → channel_measurement_t)
    (nav_time : ℝ) (i : Fin n) : ℝ :=
  (mean_TOT n meas nav_time - channel_TOT nav_time (meas i)) * NAV_C + NOMINAL_RANGE

/-- The pseudorange rate assigned at track.c:174, before the clock-drift
correction of track.c:187 is subtracted: `NAV_C * -carrier_freq / GPS_L1_HZ`. -/
noncomputable def pseudorange_rate_initial (m : channel_measurement_t) : ℝ :=
  NAV_C * -m.carrier_freq / GPS_L1_HZ

/-- track.c:162-189: `calc_navigation_measurement_`.  `calc_sat_pos` is the
external propagator, passed as a function of the channel index (standing for
`ephemerides[i]`) and the transmit time. -/
noncomputable def calc_navigation_measurement_ (n : ℕ)
    (meas : Fin n → channel_measurement_t) (nav_time : ℝ)
    (calc_sat_pos : Fin n → ℝ → SatPosResult) :
    Fin n → navigation_measurement_t := fun i =>
  let TOT_i := channel_TOT nav_time (meas i)
  let sat := calc_sat_pos i TOT_i
  { TOT := TOT_i
    pseudorange := pseudorange_initial n meas nav_time i + sat.clock_err * NAV_C
    pseudorange_rate := pseudorange_rate_initial (meas i) - sat.clock_rate_err * NAV_C
    sat_pos := sat.sat_pos
    sat_vel := sat.sat_vel }

/-! ### Theorems -/

/-- C2: for every bandwidth `B`, damping ratio `zeta`, loop gain `k` and
sampling frequency `f_s` (with `zeta > 0`, `k ≠ 0`, `f_s > 0` so all
divisions are defined), `calc_loop_gains` returns exactly
`k_p = 8*zeta*omega_n*T : D` and `k_i = 4*omega_n^2*T^2 / D`, where
`omega_n = 8*zeta*B/(4*zeta^2 + 1)`, `T = 1/f_s` and
`D = k*(4 + 4*zeta*omega_n*T + omega_n^2*T^2)`. -/
theorem calc_loop_gains_formula (B zeta k f_s omega_n T D : ℝ)
    (hz : 0 < zeta) (hk : k ≠ 0) (hf : 0 < f_s)
    (ho : omega_n = 8 * zeta * B / (4 * zeta ^ 2 + 1))
    (hT : T = 1 / f_s)
    (hD : D = k * (4 + 4 * zeta * omega_n * T + omega_n ^ 2 * T ^ 2)) :
    calc_loop_gains B zeta k f_s
      = (8 * zeta * omega_n * T / D, 4 * omega_n ^ 2 * T ^ 2 / D) := by
  subst ho hT hD
  simp only [calc_loop_gains, loop_omega_n, Prod.mk.injEq]
  constructor <;> ring_nf

/-- Witness for C2 at `B = 1`, `zeta = 1`, `k = 1`, `f_s = 1` (so
`omega_n = 8/5`, `T = 1`, `D = 324/25`). -/
theorem calc_loop_gains_formula_witness :
    calc_loop_gains 1 1 1 1
      = (8 * 1 * (8 / 5) * 1 / (324 / 25), 4 * (8 / 5) ^ 2 * 1 ^ 2 / (324 / 25)) :=
  calc_loop_gains_formula 1 1 1 1 (8 / 5) 1 (324 / 25)
    (by norm_num) (by norm_num) (by norm_num)
    (by norm_num) (by norm_num) (by norm_num)

/-- C3: the Costas discriminator is `atan(I/Q)/(2*pi)`; it has the 180°
ambiguity symmetry `costas(I, Q) = costas(-I, -Q)` for all `I, Q`;
`costas(0, 1) = 0`; and the `Q = 0` degenerate case yields `+0.25` cycles
as the arctangent limit (the real-valued reading of `atan(1/Q)` as
`Q → 0⁺`, matching IEEE `atan(+inf) = pi/2` of the C evaluation). -/
theorem costas_discriminator_spec :
    (∀ I Q : ℝ, costas_discriminator I Q = Real.arctan (I / Q) / (2 * Real.pi))
    ∧ (∀ I Q : ℝ, costas_discriminator I Q = costas_discriminator (-I) (-Q))
    ∧ costas_discriminator 0 1 = 0
    ∧ Filter.Tendsto (fun Q : ℝ => costas_discriminator 1 Q)
        (nhdsWithin 0 (Set.Ioi 0)) (nhds (1 / 4)) := by
  refine ⟨fun I Q => rfl, fun I Q => ?_, ?_, ?_⟩
  · simp only [costas_discriminator, neg_div_neg_eq]
  · simp [costas_discriminator]
  · have h1 : Filter.Tendsto (fun q : ℝ => 1 / q)
        (nhdsWithin 0 (Set.Ioi 0)) Filter.atTop := by
      simpa [one_div] using tendsto_inv_zero_atTop
    have h2 : Filter.Tendsto (fun q : ℝ => Real.arctan (1 / q))
        (nhdsWithin 0 (Set.Ioi 0)) (nhds (Real.pi / 2)) :=
      (Real.tendsto_arctan_atTop.mono_right nhdsWithin_le_nhds).comp h1
    have h3 := h2.div_const (2 * Real.pi)
    have h4 : Real.pi / 2 / (2 * Real.pi) = 1 / 4 := by
      field_simp
      ring
    simp only [costas_discriminator]
    rw [← h4]
    exact h3

/-- C4: with `|E| = sqrt(I_E^2 + Q_E^2)`, `|L| = sqrt(I_L^2 + Q_L^2)` and
`|E| + |L| ≠ 0`, `dll_discriminator` returns `(|E| - |L|)/(|E| + |L|)`;
it returns `0` when `|E| = |L|` and a strictly positive value when
`|E| > |L|`. -/
theorem dll_discriminator_spec (cs : Fin 3 → correlation_t) (E L : ℝ)
    (hE : E = Real.sqrt ((cs 0).I ^ 2 + (cs 0).Q ^ 2))
    (hL : L = Real.sqrt ((cs 2).I ^ 2 + (cs 2).Q ^ 2))
    (hne : E + L ≠ 0) :
    dll_discriminator cs = (E - L) / (E + L)
    ∧ (E = L → dll_discriminator cs = 0)
    ∧ (L < E → 0 < dll_discriminator cs) := by
  have hdll : dll_discriminator cs = (E - L) / (E + L) := by
    simp only [dll_discriminator, hE, hL]
    norm_num [sq]
  refine ⟨hdll, fun hEL => ?_, fun hLE => ?_⟩
  · rw [hdll, hEL, sub_self, zero_div]
  · rw [hdll]
    have hL0 : 0 ≤ L := hL ▸ Real.sqrt_nonneg _
    have hden : 0 < E + L := by linarith
    exact div_pos (by linarith) hden

/-- Witness for C4 at the all-`(1, 0)` correlation triple (`|E| = |L| = 1`). -/
theorem dll_discriminator_spec_witness :
    dll_discriminator (fun _ => ⟨1, 0⟩) = ((1 : ℝ) - 1) / (1 + 1)
    ∧ ((1 : ℝ) = 1 → dll_discriminator (fun _ => ⟨1, 0⟩) = 0)
    ∧ ((1 : ℝ) < 1 → 0 < dll_discriminator (fun _ => ⟨1, 0⟩)) :=
  dll_discriminator_spec (fun _ => ⟨1, 0⟩) 1 1
    (by norm_num) (by norm_num) (by norm_num)

/-- Counterexample for C7 as stated: at `B = 1`, `zeta = 1`, `k = -1`,
`f_s = 1` (all within the claim's domain, since the claim only requires
`k ≠ 0`) the proportional gain returned by `calc_loop_gains` is `-80/81`,
strictly negative — not strictly positive as claimed. -/
theorem calc_loop_gains_negative_k_cex :
    (calc_loop_gains 1 1 (-1) 1).1 = -80 / 81
    ∧ ¬ (0 < (calc_loop_gains 1 1 (-1) 1).1) := by
  have h : (calc_loop_gains 1 1 (-1) 1).1 = -80 / 81 := by
    simp only [calc_loop_gains, loop_omega_n]
    norm_num
  exact ⟨h, by rw [h]; norm_num⟩

/-- C7 (amended): for all `zeta > 0`, `k ≠ 0`, `B > 0`, `f_s > 0`,
`calc_loop_coeff` returns the time constants `tau1 = k/omega_n^2`,
`tau2 = 2*zeta/omega_n` for the same natural frequency
`omega_n = 8*zeta*B/(4*zeta^2+1)` used by `calc_loop_gains`, and the
gains recomputed from those time constants agree exactly with
`calc_loop_gains`; the gains `k_p` and `k_i` are both strictly positive
when additionally `k > 0` (for `k < 0` they are both negative, see the
counterexample). -/
theorem loop_gains_coeff_consistent (B zeta k f_s : ℝ)
    (hz : 0 < zeta) (hk : k ≠ 0) (hB : 0 < B) (hf : 0 < f_s) :
    calc_loop_coeff B zeta k
      = (k / (loop_omega_n B zeta) ^ 2, 2 * zeta / loop_omega_n B zeta)
    ∧ loop_omega_n B zeta = 8 * zeta * B / (4 * zeta ^ 2 + 1)
    ∧ gains_from_time_constants (calc_loop_coeff B zeta k).1
        (calc_loop_coeff B zeta k).2 k (1 / f_s) = calc_loop_gains B zeta k f_s
    ∧ (0 < k → 0 < (calc_loop_gains B zeta k f_s).1
        ∧ 0 < (calc_loop_gains B zeta k f_s).2) := by
  have hw : 0 < loop_omega_n B zeta := by
    apply div_pos (by positivity)
    positivity
  have hw' : loop_omega_n B zeta ≠ 0 := ne_of_gt hw
  have hT : 0 < 1 / f_s := by positivity
  refine ⟨by simp only [calc_loop_coeff, sq], by simp only [loop_omega_n]; ring,
    ?_, fun hkpos => ?_⟩
  · simp only [calc_loop_coeff, gains_from_time_constants, calc_loop_gains,
      Prod.mk.injEq]
    constructor <;> (field_simp; ring)
  · have hden : 0 < k * (4 + 4 * zeta * loop_omega_n B zeta * (1 / f_s)
        + loop_omega_n B zeta * loop_omega_n B zeta * (1 / f_s) * (1 / f_s)) := by
      apply mul_pos hkpos
      positivity
    constructor
    · simp only [calc_loop_gains]
      exact div_pos (by positivity) hden
    · simp only [calc_loop_gains]
      exact div_pos (by positivity) hden

/-- Witness for C7 (amended) at `B = 1`, `zeta = 1`, `k = 1`, `f_s = 1`. -/
theorem loop_gains_coeff_consistent_witness :
    calc_loop_coeff 1 1 1
      = (1 / (loop_omega_n 1 1) ^ 2, 2 * 1 / loop_omega_n 1 1)
    ∧ loop_omega_n 1 1 = 8 * 1 * 1 / (4 * 1 ^ 2 + 1)
    ∧ gains_from_time_constants (calc_loop_coeff 1 1 1).1
        (calc_loop_coeff 1 1 1).2 1 (1 / 1) = calc_loop_gains 1 1 1 1
    ∧ ((0 : ℝ) < 1 → 0 < (calc_loop_gains 1 1 1 1).1
        ∧ 0 < (calc_loop_gains 1 1 1 1).2) :=
  loop_gains_coeff_consistent 1 1 1 1
    (by norm_num) (by norm_num) (by norm_num) (by norm_num)

/-- C1: for every array of `n ≥ 1` channel measurements,
`calc_navigation_measurement_` computes per channel `i`:
`TOT_i = time_of_week_ms/1000 + code_phase_chips/1.023e6
 + (nav_time - receiver_time)*code_phase_rate/1.023e6`; the uncorrected
pseudorange is `(mean_TOT - TOT_i)*NAV_C + NOMINAL_RANGE` with `mean_TOT`
the arithmetic mean of all `TOT_i`; the uncorrected pseudorange rate is
`NAV_C * (-carrier_freq/GPS_L1_HZ)`; and after calling the external
propagator at `TOT_i` the reported pseudorange is the uncorrected one plus
`clock_err*NAV_C` and the reported rate is the uncorrected one minus
`clock_rate_err*NAV_C`. -/
theorem calc_navigation_measurement_spec (n : ℕ) (hn : 1 ≤ n)
    (meas : Fin n → channel_measurement_t) (nav_time : ℝ)
    (calc_sat_pos : Fin n → ℝ → SatPosResult) (i : Fin n) :
    (calc_navigation_measurement_ n meas nav_time calc_sat_pos i).TOT
      = (meas i).time_of_week_ms / 1000 + (meas i).code_phase_chips / 1.023e6
        + (nav_time - (meas i).receiver_time) * (meas i).code_phase_rate / 1.023e6
    ∧ mean_TOT n meas nav_time = (∑ j, channel_TOT nav_time (meas j)) / n
    ∧ pseudorange_initial n meas nav_time i
      = (mean_TOT n meas nav_time - channel_TOT nav_time (meas i)) * NAV_C
        + NOMINAL_RANGE
    ∧ pseudorange_rate_initial (meas i)
      = NAV_C * (-(meas i).carrier_freq / GPS_L1_HZ)
    ∧ (calc_navigation_measurement_ n meas nav_time calc_sat_pos i).pseudorange
      = pseudorange_initial n meas nav_time i
        + (calc_sat_pos i (channel_TOT nav_time (meas i))).clock_err * NAV_C
    ∧ (calc_navigation_measurement_ n meas nav_time calc_sat_pos i).pseudorange_rate
      = pseudorange_rate_initial (meas i)
        - (calc_sat_pos i (channel_TOT nav_time (meas i))).clock_rate_err * NAV_C := by
  refine ⟨?_, rfl, rfl, ?_, rfl, rfl⟩
  · show channel_TOT nav_time (meas i) = _
    simp only [channel_TOT]
    ring
  · simp only [pseudorange_rate_initial]
    ring

/-- Witness for C1 at a single all-zero channel. -/
theorem calc_navigation_measurement_spec_witness :
    (calc_navigation_measurement_ 1 (fun _ => ⟨0, 0, 0, 0, 0⟩) 0
        (fun _ _ => ⟨fun _ => 0, fun _ => 0, 0, 0⟩) 0).TOT
      = ((fun _ => (⟨0, 0, 0, 0, 0⟩ : channel_measurement_t)) (0 : Fin 1)).time_of_week_ms / 1000
        + ((fun _ => (⟨0, 0, 0, 0, 0⟩ : channel_measurement_t)) (0 : Fin 1)).code_phase_chips / 1.023e6
        + ((0 : ℝ) - ((fun _ => (⟨0, 0, 0, 0, 0⟩ : channel_measurement_t)) (0 : Fin 1)).receiver_time)
          * ((fun _ => (⟨0, 0, 0, 0, 0⟩ : channel_measurement_t)) (0 : Fin 1)).code_phase_rate / 1.023e6
    ∧ mean_TOT 1 (fun _ => ⟨0, 0, 0, 0, 0⟩) 0
      = (∑ j : Fin 1, channel_TOT 0 ((fun _ => (⟨0, 0, 0, 0, 0⟩ : channel_measurement_t)) j)) / 1
    ∧ pseudorange_initial 1 (fun _ => ⟨0, 0, 0, 0, 0⟩) 0 0
      = (mean_TOT 1 (fun _ => ⟨0, 0, 0, 0, 0⟩) 0 - channel_TOT 0 ⟨0, 0, 0, 0, 0⟩) * NAV_C
        + NOMINAL_RANGE
    ∧ pseudorange_rate_initial ⟨0, 0, 0, 0, 0⟩
      = NAV_C * (-(channel_measurement_t.mk 0 0 0 0 0).carrier_freq / GPS_L1_HZ)
    ∧ (calc_navigation_measurement_ 1 (fun _ => ⟨0, 0, 0, 0, 0⟩) 0
        (fun _ _ => ⟨fun _ => 0, fun _ => 0, 0, 0⟩) 0).pseudorange
      = pseudorange_initial 1 (fun _ => ⟨0, 0, 0, 0, 0⟩) 0 0
        + ((fun (_ : Fin 1) (_ : ℝ) => (⟨fun _ => 0, fun _ => 0, 0, 0⟩ : SatPosResult)) 0
            (channel_TOT 0 ⟨0, 0, 0, 0, 0⟩)).clock_err * NAV_C
    ∧ (calc_navigation_measurement_ 1 (fun _ => ⟨0, 0, 0, 0, 0⟩) 0
        (fun _ _ => ⟨fun _ => 0, fun _ => 0, 0, 0⟩) 0).pseudorange_rate
      = pseudorange_rate_initial ⟨0, 0, 0, 0, 0⟩
        - ((fun (_ : Fin 1) (_ : ℝ) => (⟨fun _ => 0, fun _ => 0, 0, 0⟩ : SatPosResult)) 0
            (channel_TOT 0 ⟨0, 0, 0, 0, 0⟩)).clock_rate_err * NAV_C := by
  exact_mod_cast calc_navigation_measurement_spec 1 (by norm_num) (fun _ => ⟨0, 0, 0, 0, 0⟩) 0
    (fun _ _ => ⟨fun _ => 0, fun _ => 0, 0, 0⟩) 0

/-- C8: for two channels whose derived times-of-transmission agree, the two
pseudoranges before the per-satellite clock correction are equal, and both
equal the nominal range offset. -/
theorem pseudorange_two_channel_symmetry (meas : Fin 2 → channel_measurement_t)
    (nav_time : ℝ)
    (h : channel_TOT nav_time (meas 0) = channel_TOT nav_time (meas 1)) :
    pseudorange_initial 2 meas nav_time 0 = pseudorange_initial 2 meas nav_time 1
    ∧ pseudorange_initial 2 meas nav_time 0 = NOMINAL_RANGE := by
  have hm : mean_TOT 2 meas nav_time = channel_TOT nav_time (meas 1) := by
    simp only [mean_TOT, Fin.sum_univ_two, h, Nat.cast_ofNat]
    ring
  constructor
  · simp only [pseudorange_initial, h]
  · simp only [pseudorange_initial, hm, h]
    ring

/-- Witness for C8 at two identical all-zero channels. -/
theorem pseudorange_two_channel_symmetry_witness :
    pseudorange_initial 2 (fun _ => ⟨0, 0, 0, 0, 0⟩) 0 0
      = pseudorange_initial 2 (fun _ => ⟨0, 0, 0, 0, 0⟩) 0 1
    ∧ pseudorange_initial 2 (fun _ => ⟨0, 0, 0, 0, 0⟩) 0 0 = NOMINAL_RANGE :=
  pseudorange_two_channel_symmetry (fun _ => ⟨0, 0, 0, 0, 0⟩) 0 rfl

/-- C10: for every `n ≥ 1` and every input array, the per-channel offsets
`mean_TOT - TOT_i` sum to exactly zero, so the arithmetic mean of the `n`
pseudoranges before the per-satellite clock correction equals the nominal
range offset constant exactly. -/
theorem pseudorange_initial_mean (n : ℕ) (hn : 1 ≤ n)
    (meas : Fin n → channel_measurement_t) (nav_time : ℝ) :
    (∑ i, (mean_TOT n meas nav_time - channel_TOT nav_time (meas i))) = 0
    ∧ (∑ i, pseudorange_initial n meas nav_time i) / n = NOMINAL_RANGE := by
  have hn0 : (n : ℝ) ≠ 0 := by
    exact_mod_cast Nat.one_le_iff_ne_zero.mp hn
  have hsum : (∑ i, (mean_TOT n meas nav_time - channel_TOT nav_time (meas i))) = 0 := by
    rw [Finset.sum_sub_distrib, Finset.sum_const, Finset.card_univ, Fintype.card_fin]
    simp only [mean_TOT, nsmul_eq_mul]
    field_simp
  refine ⟨hsum, ?_⟩
  have hexp : (∑ i, pseudorange_initial n meas nav_time i)
      = (∑ i, (mean_TOT n meas nav_time - channel_TOT nav_time (meas i))) * NAV_C
        + n * NOMINAL_RANGE := by
    simp only [pseudorange_initial, Finset.sum_add_distrib, Finset.sum_const,
      Finset.card_univ, Fintype.card_fin, nsmul_eq_mul, ← Finset.sum_mul]
  rw [hexp, hsum, zero_mul, zero_add, mul_comm, mul_div_assoc, div_self hn0, mul_one]

/-- Witness for C10 at a single all-zero channel. -/
theorem pseudorange_initial_mean_witness :
    (∑ i : Fin 1, (mean_TOT 1 (fun _ => ⟨0, 0, 0, 0, 0⟩) 0
        - channel_TOT 0 ((fun _ => (⟨0, 0, 0, 0, 0⟩ : channel_measurement_t)) i))) = 0
    ∧ (∑ i : Fin 1, pseudorange_initial 1 (fun _ => ⟨0, 0, 0, 0, 0⟩) 0 i) / 1
      = NOMINAL_RANGE := by
  exact_mod_cast pseudorange_initial_mean 1 (by norm_num) (fun _ => ⟨0, 0, 0, 0, 0⟩) 0

/-- Splitting a `List.range` fold at its last iteration. -/
theorem foldl_range_succ_eq {α : Type} (f : α → ℕ → α) (a : α) (n : ℕ) :
    (List.range (n + 1)).foldl f a = f ((List.range n).foldl f a) n := by
  rw [List.range_succ, List.foldl_append, List.foldl_cons, List.foldl_nil]

/-- The two phase accumulators of the `track_correlate` loop advance by
exactly one step size per iteration (track.c:246-247). -/
theorem trackStep_foldl_phases (samples : ℕ → ℝ) (code : ℤ → ℝ)
    (cs δ sd cd : ℝ) (st0 : TrackState) : ∀ n : ℕ,
    ((List.range n).foldl (trackStep samples code cs δ sd cd) st0).code_phase
      = st0.code_phase + n * cs
    ∧ ((List.range n).foldl (trackStep samples code cs δ sd cd) st0).carr_phase
      = st0.carr_phase + n * δ := by
  intro n
  induction n with
  | zero => simp
  | succ n ih =>
    rw [foldl_range_succ_eq]
    obtain ⟨h1, h2⟩ := ih
    constructor
    · show ((List.range n).foldl _ st0).code_phase + cs = _
      rw [h1]
      push_cast
      ring
    · show ((List.range n).foldl _ st0).carr_phase + δ = _
      rw [h2]
      push_cast
      ring

/-- `fmod x y` for `0 ≤ x`, `0 < y` lies in `[0, y)` (the truncated and the
floored quotient agree for a nonnegative argument). -/
theorem fmod_mem_Ico (x y : ℝ) (hx : 0 ≤ x) (hy : 0 < y) :
    fmod x y ∈ Set.Ico 0 y := by
  have ht : 0 ≤ x / y := div_nonneg hx hy.le
  simp only [fmod, rtrunc, if_pos ht, Set.mem_Ico]
  constructor
  · have h1 : (⌊x / y⌋ : ℝ) ≤ x / y := Int.floor_le _
    have h2 : y * (⌊x / y⌋ : ℝ) ≤ y * (x / y) :=
      mul_le_mul_of_nonneg_left h1 hy.le
    have h3 : y * (x / y) = x := by
      rw [mul_comm, div_mul_cancel₀ x (ne_of_gt hy)]
    linarith
  · have h1 : x / y < ⌊x / y⌋ + 1 := Int.lt_floor_add_one _
    have h2 : x < (⌊x / y⌋ + 1) * y := (div_lt_iff₀ hy).mp h1
    linarith [h2]


/-- Counterexample for C5 as stated: at initial code phase `0`, code step
`1023`, initial carrier phase `-1` and carrier step `0` (a valid call per
the claim's hypotheses, which constrain only the code phase and code step),
the carrier phase written back is `-1`, which does not lie in `[0, 2*pi)` —
C's `fmod` keeps the sign of its first argument instead of wrapping into
`[0, 2*pi)`. -/
theorem track_correlate_carrier_wrap_cex :
    (track_correlate (fun _ => 1) (fun _ => 1) 0 1023 (-1) 0).carr_phase = -1
    ∧ (track_correlate (fun _ => 1) (fun _ => 1) 0 1023 (-1) 0).carr_phase
        ∉ Set.Ico 0 (2 * Real.pi) := by
  have h2pi : (1 : ℝ) < 2 * Real.pi := by
    have := Real.pi_gt_three
    linarith
  have hphase := (trackStep_foldl_phases (fun _ => 1) (fun _ => 1) 1023 0
    (Real.sin 0) (Real.cos 0)
    ⟨0, -1, Real.sin (-1), Real.cos (-1), 0, 0, 0, 0, 0, 0⟩
    ((⌈((1023 : ℝ) - 0) / 1023⌉).toNat)).2
  have hunfold : (track_correlate (fun _ => 1) (fun _ => 1) 0 1023 (-1) 0).carr_phase
      = fmod (((List.range ((⌈((1023 : ℝ) - 0) / 1023⌉).toNat)).foldl
          (trackStep (fun _ => 1) (fun _ => 1) 1023 0 (Real.sin 0) (Real.cos 0))
          ⟨0, -1, Real.sin (-1), Real.cos (-1), 0, 0, 0, 0, 0, 0⟩).carr_phase)
          (2 * Real.pi) := rfl
  have hst : (((List.range ((⌈((1023 : ℝ) - 0) / 1023⌉).toNat)).foldl
      (trackStep (fun _ => 1) (fun _ => 1) 1023 0 (Real.sin 0) (Real.cos 0))
      ⟨0, -1, Real.sin (-1), Real.cos (-1), 0, 0, 0, 0, 0, 0⟩).carr_phase) = -1 := by
    rw [hphase]
    show (-1 : ℝ) + ((⌈((1023 : ℝ) - 0) / 1023⌉).toNat : ℝ) * 0 = -1
    ring
  have htr : rtrunc ((-1 : ℝ) / (2 * Real.pi)) = 0 := by
    have hneg : (-1 : ℝ) / (2 * Real.pi) < 0 :=
      div_neg_of_neg_of_pos (by norm_num) Real.two_pi_pos
    have hgt : (-1 : ℝ) < (-1 : ℝ) / (2 * Real.pi) := by
      have h1 : (1 : ℝ) / (2 * Real.pi) < 1 := (div_lt_one Real.two_pi_pos).mpr h2pi
      have h2 : (-1 : ℝ) / (2 * Real.pi) = -(1 / (2 * Real.pi)) := by
        rw [neg_div]
      rw [h2]
      linarith
    simp only [rtrunc, if_neg (not_le.mpr hneg)]
    rw [Int.ceil_eq_zero_iff]
    exact ⟨hgt, hneg.le⟩
  have hval : (track_correlate (fun _ => 1) (fun _ => 1) 0 1023 (-1) 0).carr_phase = -1 := by
    rw [hunfold, hst]
    simp only [fmod, htr, Int.cast_zero]
    ring
  refine ⟨hval, ?_⟩
  rw [hval]
  intro hmem
  have h0 : (0 : ℝ) ≤ -1 := hmem.1
  norm_num at h0

/-- C5 (amended): for every call to `track_correlate` with initial code
phase `p ∈ [0, 1023)` and code step `s > 0`, the number of samples
processed equals `⌈(1023 - p)/s⌉`; the code phase written back equals
`p + num_samples*s - 1023` (the final accumulated code phase minus exactly
one 1023-chip code period); and the carrier phase written back equals
`fmod` of the final accumulated carrier phase by `2*pi` — which lies in
`[0, 2*pi)` whenever the accumulated carrier phase is nonnegative (for a
negative accumulated phase C's `fmod` returns a nonpositive value, see the
counterexample). -/
theorem track_correlate_epoch_spec (samples : ℕ → ℝ) (code : ℤ → ℝ)
    (p s phi delta : ℝ) (hp0 : 0 ≤ p) (hp : p < 1023) (hs : 0 < s) :
    ((track_correlate samples code p s phi delta).num_samples : ℤ)
      = ⌈(1023 - p) / s⌉
    ∧ (track_correlate samples code p s phi delta).code_phase
      = p + (track_correlate samples code p s phi delta).num_samples * s - 1023
    ∧ (track_correlate samples code p s phi delta).carr_phase
      = fmod (phi + (track_correlate samples code p s phi delta).num_samples * delta)
          (2 * Real.pi)
    ∧ (0 ≤ phi + (track_correlate samples code p s phi delta).num_samples * delta →
        (track_correlate samples code p s phi delta).carr_phase
          ∈ Set.Ico 0 (2 * Real.pi)) := by
  have hceil : 0 < ⌈(1023 - p) / s⌉ :=
    Int.ceil_pos.mpr (div_pos (by linarith) hs)
  have hns : (track_correlate samples code p s phi delta).num_samples
      = (⌈(1023 - p) / s⌉).toNat := rfl
  have hfold := trackStep_foldl_phases samples code s delta (Real.sin delta)
    (Real.cos delta) ⟨p, phi, Real.sin phi, Real.cos phi, 0, 0, 0, 0, 0, 0⟩
    ((⌈(1023 - p) / s⌉).toNat)
  have hcode : (track_correlate samples code p s phi delta).code_phase
      = p + ((⌈(1023 - p) / s⌉).toNat : ℝ) * s - 1023 := by
    have h1 : (track_correlate samples code p s phi delta).code_phase
        = ((List.range ((⌈(1023 - p) / s⌉).toNat)).foldl
            (trackStep samples code s delta (Real.sin delta) (Real.cos delta))
            ⟨p, phi, Real.sin phi, Real.cos phi, 0, 0, 0, 0, 0, 0⟩).code_phase
          - 1023 := rfl
    rw [h1, hfold.1]
  have hcarr : (track_correlate samples code p s phi delta).carr_phase
      = fmod (phi + ((⌈(1023 - p) / s⌉).toNat : ℝ) * delta) (2 * Real.pi) := by
    have h1 : (track_correlate samples code p s phi delta).carr_phase
        = fmod (((List.range ((⌈(1023 - p) / s⌉).toNat)).foldl
            (trackStep samples code s delta (Real.sin delta) (Real.cos delta))
            ⟨p, phi, Real.sin phi, Real.cos phi, 0, 0, 0, 0, 0, 0⟩).carr_phase)
            (2 * Real.pi) := rfl
    rw [h1, hfold.2]
  refine ⟨?_, ?_, ?_, ?_⟩
  · rw [hns]
    exact Int.toNat_of_nonneg hceil.le
  · rw [hcode, hns]
  · rw [hcarr, hns]
  · intro h
    rw [hcarr]
    rw [hns] at h
    exact fmod_mem_Ico _ _ h Real.two_pi_pos

/-- Witness for C5 (amended) at `p = 0`, `s = 1023`, zero carrier phase and
step. -/
theorem track_correlate_epoch_spec_witness :
    ((track_correlate (fun _ => 1) (fun _ => 1) 0 1023 0 0).num_samples : ℤ)
      = ⌈((1023 : ℝ) - 0) / 1023⌉
    ∧ (track_correlate (fun _ => 1) (fun _ => 1) 0 1023 0 0).code_phase
      = 0 + (track_correlate (fun _ => 1) (fun _ => 1) 0 1023 0 0).num_samples * 1023
        - 1023
    ∧ (track_correlate (fun _ => 1) (fun _ => 1) 0 1023 0 0).carr_phase
      = fmod (0 + (track_correlate (fun _ => 1) (fun _ => 1) 0 1023 0 0).num_samples * 0)
          (2 * Real.pi)
    ∧ ((0 : ℝ) ≤ 0 + (track_correlate (fun _ => 1) (fun _ => 1) 0 1023 0 0).num_samples * 0 →
        (track_correlate (fun _ => 1) (fun _ => 1) 0 1023 0 0).carr_phase
          ∈ Set.Ico 0 (2 * Real.pi)) :=
  track_correlate_epoch_spec (fun _ => 1) (fun _ => 1) 0 1023 0 0
    (by norm_num) (by norm_num) (by norm_num)

/-- One unit-sample, all-ones-code, zero-carrier-step iteration of the
inner loop: the sin/cos carrier replica is a fixed point of the rotation
plus first-order renormalization (its magnitude is exactly 1), and the
prompt in-phase accumulator grows by exactly `sin phi`. -/
theorem trackStep_unit_invariant (s phi : ℝ) (st : TrackState) (i : ℕ)
    (h1 : st.carr_sin = Real.sin phi) (h2 : st.carr_cos = Real.cos phi) :
    (trackStep (fun _ => 1) (fun _ => 1) s 0 (Real.sin 0) (Real.cos 0) st i).carr_sin
      = Real.sin phi
    ∧ (trackStep (fun _ => 1) (fun _ => 1) s 0 (Real.sin 0) (Real.cos 0) st i).carr_cos
      = Real.cos phi
    ∧ (trackStep (fun _ => 1) (fun _ => 1) s 0 (Real.sin 0) (Real.cos 0) st i).I_P
      = st.I_P + Real.sin phi := by
  have hpyth : Real.sin phi * Real.sin phi + Real.cos phi * Real.cos phi = 1 := by
    have h := Real.sin_sq_add_cos_sq phi
    nlinarith [h]
  refine ⟨?_, ?_, ?_⟩
  · simp only [trackStep, Real.sin_zero, Real.cos_zero, h1, h2]
    linear_combination (-(Real.sin phi) / 2) * hpyth
  · simp only [trackStep, Real.sin_zero, Real.cos_zero, h1, h2]
    linear_combination (-(Real.cos phi) / 2) * hpyth
  · simp only [trackStep, Real.sin_zero, Real.cos_zero, h1]
    ring

/-- Folding the unit-sample, all-ones-code, zero-carrier-step loop: the
carrier replica stays at `(sin phi, cos phi)` and the prompt in-phase sum
after `n` iterations is exactly `n * sin phi`. -/
theorem trackStep_foldl_unit (p s phi : ℝ) : ∀ n : ℕ,
    ((List.range n).foldl
      (trackStep (fun _ => 1) (fun _ => 1) s 0 (Real.sin 0) (Real.cos 0))
      ⟨p, phi, Real.sin phi, Real.cos phi, 0, 0, 0, 0, 0, 0⟩).carr_sin = Real.sin phi
    ∧ ((List.range n).foldl
      (trackStep (fun _ => 1) (fun _ => 1) s 0 (Real.sin 0) (Real.cos 0))
      ⟨p, phi, Real.sin phi, Real.cos phi, 0, 0, 0, 0, 0, 0⟩).carr_cos = Real.cos phi
    ∧ ((List.range n).foldl
      (trackStep (fun _ => 1) (fun _ => 1) s 0 (Real.sin 0) (Real.cos 0))
      ⟨p, phi, Real.sin phi, Real.cos phi, 0, 0, 0, 0, 0, 0⟩).I_P
      = n * Real.sin phi := by
  intro n
  induction n with
  | zero => simp
  | succ n ih =>
    rw [foldl_range_succ_eq]
    obtain ⟨h1, h2, h3⟩ := ih
    obtain ⟨hs1, hs2, hs3⟩ := trackStep_unit_invariant s phi _ n h1 h2
    refine ⟨hs1, hs2, ?_⟩
    rw [hs3, h3]
    push_cast
    ring

/-- Counterexample for C6 as stated: at initial code phase `0`, code step
`1023`, all-ones code and samples, carrier step `0` and initial carrier
phase `0` (the claim places no constraint on the initial carrier phase),
`num_samples = 1` but the prompt in-phase sum is `0`, not `1`: each sample
contributes `sin(carr_phase) * sample`, which vanishes at zero phase. -/
theorem track_correlate_unit_cex :
    (track_correlate (fun _ => 1) (fun _ => 1) 0 1023 0 0).num_samples = 1
    ∧ (track_correlate (fun _ => 1) (fun _ => 1) 0 1023 0 0).I_P = 0
    ∧ (track_correlate (fun _ => 1) (fun _ => 1) 0 1023 0 0).I_P
      ≠ ((track_correlate (fun _ => 1) (fun _ => 1) 0 1023 0 0).num_samples : ℝ) := by
  have hcount : (⌈((1023 : ℝ) - 0) / 1023⌉).toNat = 1 := by
    rw [show ((1023 : ℝ) - 0) / 1023 = 1 by norm_num, Int.ceil_one]
    rfl
  have hns : (track_correlate (fun _ => 1) (fun _ => 1) 0 1023 0 0).num_samples = 1 := by
    show (⌈((1023 : ℝ) - 0) / 1023⌉).toNat = 1
    exact hcount
  have hI : (track_correlate (fun _ => 1) (fun _ => 1) 0 1023 0 0).I_P = 0 := by
    have h1 : (track_correlate (fun _ => 1) (fun _ => 1) 0 1023 0 0).I_P
        = ((List.range ((⌈((1023 : ℝ) - 0) / 1023⌉).toNat)).foldl
            (trackStep (fun _ => 1) (fun _ => 1) 1023 0 (Real.sin 0) (Real.cos 0))
            ⟨0, 0, Real.sin 0, Real.cos 0, 0, 0, 0, 0, 0, 0⟩).I_P := rfl
    rw [h1, (trackStep_foldl_unit 0 1023 0 ((⌈((1023 : ℝ) - 0) / 1023⌉).toNat)).2.2,
      Real.sin_zero, mul_zero]
  refine ⟨hns, hI, ?_⟩
  rw [hI, hns]
  norm_num

/-- C6 (amended): for every valid call to `track_correlate` with carrier
step `0`, an all-`+1` code replica and all-`+1` samples, the prompt
in-phase sum equals `num_samples * sin(initial carrier phase)` — equal to
`num_samples` exactly when `sin` of the initial carrier phase is `1`
(e.g. phase `pi/2`) — and the carrier phase written back is `fmod` of the
unchanged input phase by `2*pi`, i.e. congruent to the input phase
modulo `2*pi`. -/
theorem track_correlate_unit_samples_spec (p s phi : ℝ)
    (hp0 : 0 ≤ p) (hp : p < 1023) (hs : 0 < s) :
    (track_correlate (fun _ => 1) (fun _ => 1) p s phi 0).I_P
      = (track_correlate (fun _ => 1) (fun _ => 1) p s phi 0).num_samples * Real.sin phi
    ∧ (Real.sin phi = 1 →
        (track_correlate (fun _ => 1) (fun _ => 1) p s phi 0).I_P
          = (track_correlate (fun _ => 1) (fun _ => 1) p s phi 0).num_samples)
    ∧ (track_correlate (fun _ => 1) (fun _ => 1) p s phi 0).carr_phase
      = fmod phi (2 * Real.pi)
    ∧ ∃ m : ℤ, (track_correlate (fun _ => 1) (fun _ => 1) p s phi 0).carr_phase
        = phi - 2 * Real.pi * m := by
  have h1 : (track_correlate (fun _ => 1) (fun _ => 1) p s phi 0).I_P
      = ((List.range ((⌈(1023 - p) / s⌉).toNat)).foldl
          (trackStep (fun _ => 1) (fun _ => 1) s 0 (Real.sin 0) (Real.cos 0))
          ⟨p, phi, Real.sin phi, Real.cos phi, 0, 0, 0, 0, 0, 0⟩).I_P := rfl
  have hns : (track_correlate (fun _ => 1) (fun _ => 1) p s phi 0).num_samples
      = (⌈(1023 - p) / s⌉).toNat := rfl
  have hIP : (track_correlate (fun _ => 1) (fun _ => 1) p s phi 0).I_P
      = ((⌈(1023 - p) / s⌉).toNat : ℝ) * Real.sin phi := by
    rw [h1, (trackStep_foldl_unit p s phi ((⌈(1023 - p) / s⌉).toNat)).2.2]
  have hphase := (trackStep_foldl_phases (fun _ => 1) (fun _ => 1) s 0
    (Real.sin 0) (Real.cos 0)
    ⟨p, phi, Real.sin phi, Real.cos phi, 0, 0, 0, 0, 0, 0⟩
    ((⌈(1023 - p) / s⌉).toNat)).2
  have hcarr : (track_correlate (fun _ => 1) (fun _ => 1) p s phi 0).carr_phase
      = fmod phi (2 * Real.pi) := by
    have h2 : (track_correlate (fun _ => 1) (fun _ => 1) p s phi 0).carr_phase
        = fmod (((List.range ((⌈(1023 - p) / s⌉).toNat)).foldl
            (trackStep (fun _ => 1) (fun _ => 1) s 0 (Real.sin 0) (Real.cos 0))
            ⟨p, phi, Real.sin phi, Real.cos phi, 0, 0, 0, 0, 0, 0⟩).carr_phase)
            (2 * Real.pi) := rfl
    have harg : (⟨p, phi, Real.sin phi, Real.cos phi, 0, 0, 0, 0, 0, 0⟩
        : TrackState).carr_phase + ((⌈(1023 - p) / s⌉).toNat : ℝ) * 0 = phi := by
      show phi + ((⌈(1023 - p) / s⌉).toNat : ℝ) * 0 = phi
      ring
    rw [h2, hphase, harg]
  refine ⟨by rw [hIP, hns], fun hsin => ?_, hcarr,
    ⟨rtrunc (phi / (2 * Real.pi)), by rw [hcarr]; rfl⟩⟩
  rw [hIP, hns, hsin, mul_one]

/-- Witness for C6 (amended) at `p = 0`, `s = 1023`, initial carrier phase
`pi/2` (where the in-phase replica is exactly `1`). -/
theorem track_correlate_unit_samples_spec_witness :
    (track_correlate (fun _ => 1) (fun _ => 1) 0 1023 (Real.pi / 2) 0).I_P
      = (track_correlate (fun _ => 1) (fun _ => 1) 0 1023 (Real.pi / 2) 0).num_samples
        * Real.sin (Real.pi / 2)
    ∧ (Real.sin (Real.pi / 2) = 1 →
        (track_correlate (fun _ => 1) (fun _ => 1) 0 1023 (Real.pi / 2) 0).I_P
          = (track_correlate (fun _ => 1) (fun _ => 1) 0 1023 (Real.pi / 2) 0).num_samples)
    ∧ (track_correlate (fun _ => 1) (fun _ => 1) 0 1023 (Real.pi / 2) 0).carr_phase
      = fmod (Real.pi / 2) (2 * Real.pi)
    ∧ ∃ m : ℤ, (track_correlate (fun _ => 1) (fun _ => 1) 0 1023 (Real.pi / 2) 0).carr_phase
        = Real.pi / 2 - 2 * Real.pi * m :=
  track_correlate_unit_samples_spec 0 1023 (Real.pi / 2)
    (by norm_num) (by norm_num) (by norm_num)

/-- C9: there is a valid `track_correlate` input (initial code phase in
`[0, 1023)`, positive code step) for which the late chip index
`ceil(code_phase + 0.5)` read by some loop iteration falls outside the
code replica's valid index range `[0, 1022]` (here index `1023`, one past
the code length); moreover the access is observable: two code replicas
that agree on the whole valid range `[0, 1022]` produce different
correlation results. -/
theorem track_correlate_code_oob :
    ∃ p s : ℝ, (0 ≤ p ∧ p < 1023) ∧ 0 < s
    ∧ (∃ i : ℕ,
        i < (track_correlate (fun _ => 1) (fun _ => 1) p s 0 0).num_samples
        ∧ ¬ (0 ≤ late_chip_index p s i ∧ late_chip_index p s i ≤ 1022))
    ∧ ∃ c1 c2 : ℤ → ℝ,
        (∀ j : ℤ, 0 ≤ j → j ≤ 1022 → c1 j = c2 j)
        ∧ track_correlate (fun _ => 1) c1 p s (Real.pi / 2) 0
          ≠ track_correlate (fun _ => 1) c2 p s (Real.pi / 2) 0 := by
  have hcount : (⌈((1023 : ℝ) - 1022.5) / 0.5⌉).toNat = 1 := by
    rw [show ((1023 : ℝ) - 1022.5) / 0.5 = 1 by norm_num, Int.ceil_one]
    rfl
  have hrun : ∀ c : ℤ → ℝ,
      (track_correlate (fun _ => 1) c 1022.5 0.5 (Real.pi / 2) 0).I_L = c 1023 := by
    intro c
    have h1 : (track_correlate (fun _ => 1) c 1022.5 0.5 (Real.pi / 2) 0).I_L
        = ((List.range ((⌈((1023 : ℝ) - 1022.5) / 0.5⌉).toNat)).foldl
            (trackStep (fun _ => 1) c 0.5 0 (Real.sin 0) (Real.cos 0))
            ⟨1022.5, Real.pi / 2, Real.sin (Real.pi / 2), Real.cos (Real.pi / 2),
              0, 0, 0, 0, 0, 0⟩).I_L := rfl
    rw [h1, hcount, show List.range 1 = [0] from rfl, List.foldl_cons, List.foldl_nil]
    simp only [trackStep]
    rw [Real.sin_pi_div_two]
    rw [show (1022.5 : ℝ) + 0.5 = ((1023 : ℤ) : ℝ) by norm_num, Int.ceil_intCast]
    ring
  refine ⟨1022.5, 0.5, ⟨by norm_num, by norm_num⟩, by norm_num, ⟨0, ?_, ?_⟩,
    fun _ => 1, fun j => if j ≤ 1022 then 1 else 0, fun j hj0 hj => ?_, fun heq => ?_⟩
  · show 0 < (⌈((1023 : ℝ) - 1022.5) / 0.5⌉).toNat
    rw [hcount]
    norm_num
  · have hlate : late_chip_index 1022.5 0.5 0 = 1023 := by
      simp only [late_chip_index, code_phase_at]
      rw [show (1022.5 : ℝ) + (0 : ℕ) * 0.5 + 0.5 = ((1023 : ℤ) : ℝ) by push_cast; norm_num,
        Int.ceil_intCast]
    rw [hlate]
    norm_num
  · show (1 : ℝ) = if j ≤ 1022 then 1 else 0
    rw [if_pos hj]
  · have hIL := congrArg TrackResult.I_L heq
    rw [hrun, hrun] at hIL
    have hIL2 : (1 : ℝ) = if (1023 : ℤ) ≤ 1022 then (1 : ℝ) else 0 := hIL
    rw [if_neg (by norm_num : ¬ ((1023 : ℤ) ≤ 1022))] at hIL2
    exact one_ne_zero hIL2
